import Mathlib

/-!
# stlcache: the `cache` container of `include/stlcache/stlcache.hpp`

A shallow embedding of the class template `stlcache::cache<Key, Data, Policy>`.

* `std::map<Key, Data>` is embedded as `storageType`, a list of entries with the
  map operations the container uses (`find`, `insert`, `erase`, `size`, `clear`).
* `std::size_t` is embedded as `Nat`, reduced modulo `2 ^ w` wherever the source
  increments or decrements (`w` is the width of `std::size_t`).
* The policy object is a template parameter of the container; it is embedded as a
  record of operations `Policy K P` over an arbitrary policy state `P`.
* The `while` loop of `cache::insert` is embedded with a fuel argument that bounds
  the number of iterations; running out of fuel is the result `none`.
* `Policy.traced` logs the calls made on a policy and `Policy.tracking` keeps its set
  of tracked keys; both wrap an arbitrary policy.
* `cache_object` keeps the member `_policy` as a pointer into a heap of policy
  objects, for the properties of assignment that are about sharing.
-/

namespace stlcache

/-! ## Storage: `std::map<Key, Data>` -/

/-- The storage `std::map<Key,Data,Compare,Allocator>`: its entries, in an
arbitrary fixed order. A map holds at most one entry per key (`storageType.wf`). -/
structure storageType (K D : Type) where
  /-- The `(key, value)` entries of the map. -/
  entries : List (K × D)
deriving DecidableEq, Repr

namespace storageType

variable {K D : Type} [DecidableEq K]

/-- The keys of the entries. -/
def keys (s : storageType K D) : List K := s.entries.map Prod.fst

/-- Representation invariant of `std::map`: no two entries share a key. -/
def wf (s : storageType K D) : Prop := s.keys.Nodup

instance (s : storageType K D) : Decidable s.wf := by
  unfold wf; infer_instance

/-- Lookup in a list of entries: the value of the first entry with key `x`. -/
def lookup (x : K) : List (K × D) → Option D
  | [] => none
  | e :: es => if e.1 = x then some e.2 else lookup x es

/-- The call `find(x)`: `some d` stands for an iterator to the entry `(x, d)`,
`none` for `end()`. -/
def find (s : storageType K D) (x : K) : Option D := lookup x s.entries

/-- The call `count(x)`. -/
def count (s : storageType K D) (x : K) : Nat :=
  (s.entries.filter (fun e => decide (e.1 = x))).length

/-- The call `size()`. -/
def size (s : storageType K D) : Nat := s.entries.length

/-- The call `empty()`. -/
def empty (s : storageType K D) : Bool := s.entries.isEmpty

/-- The call `clear()`. -/
def clear (_s : storageType K D) : storageType K D := ⟨[]⟩

/-- The call `erase(x)`: removes the entries with key `x`; returns the new map and
the number of entries removed. -/
def erase (s : storageType K D) (x : K) : storageType K D × Nat :=
  (⟨s.entries.filter (fun e => !decide (e.1 = x))⟩, s.count x)

/-- The call `insert(value_type(k, d))`: adds the entry when no entry has key `k`;
the second component is the `.second` of the returned pair. -/
def insert (s : storageType K D) (k : K) (d : D) : storageType K D × Bool :=
  match s.find k with
  | some _ => (s, false)
  | none => (⟨s.entries ++ [(k, d)]⟩, true)

end storageType

/-! ## The policy interface -/

/-- The operations the container calls on its policy object (`policy_type`, the
`Policy::bind<Key,Allocator>` of the template parameter `Policy`), over a policy
state `P`. The container is generic in the policy, so the policy is a parameter of
every container operation. -/
structure Policy (K P : Type) where
  /-- The constructor `policy_type(size)`. -/
  create : Nat → P
  /-- The call `insert(k)`. -/
  insert : K → P → P
  /-- The call `remove(k)`. -/
  remove : K → P → P
  /-- The call `touch(k)`. -/
  touch : K → P → P
  /-- The call `victim()`: the `_victim<Key>` it returns (`none` when it converts to
  `false`) and the policy state it leaves. -/
  victim : P → Option K × P
  /-- The call `clear()`. -/
  clear : P → P
  /-- The call `a.swap(b)`: the states of `a` and of `b` afterwards. -/
  swap : P → P → P × P
  /-- The copy constructor `policy_type(x)`. -/
  copy : P → P

/-- One call made on the policy object. -/
inductive PolicyCall (K : Type) where
  | create (size : Nat)
  | insert (k : K)
  | remove (k : K)
  | touch (k : K)
  | victim
  | clear
  | swap
  | copy
deriving DecidableEq, Repr

/-- The policy `pol` instrumented with the log of the calls made on it: every
operation acts on the first component as `pol` does and appends itself to the log. -/
def Policy.traced {K P : Type} (pol : Policy K P) : Policy K (P × List (PolicyCall K)) where
  create n := (pol.create n, [PolicyCall.create n])
  insert k s := (pol.insert k s.1, s.2 ++ [PolicyCall.insert k])
  remove k s := (pol.remove k s.1, s.2 ++ [PolicyCall.remove k])
  touch k s := (pol.touch k s.1, s.2 ++ [PolicyCall.touch k])
  victim s := ((pol.victim s.1).1, ((pol.victim s.1).2, s.2 ++ [PolicyCall.victim]))
  clear s := (pol.clear s.1, s.2 ++ [PolicyCall.clear])
  swap a b := (((pol.swap a.1 b.1).1, a.2 ++ [PolicyCall.swap]),
    ((pol.swap a.1 b.1).2, b.2 ++ [PolicyCall.swap]))
  copy s := (pol.copy s.1, s.2 ++ [PolicyCall.copy])

/-- Modelled from the spec: the LRU policy (`policy_lru.hpp` is not part of the
sources). The state is the list of tracked keys from the least recently to the most
recently touched. `insert` places the key at the most-recent end, `touch` moves a
tracked key to the most-recent end, `remove` drops the key (a no-op if untracked),
`victim` is the least recently touched key, read without changing the state, and
is `none` only when no key is tracked. -/
def policy_lru (K : Type) [DecidableEq K] : Policy K (List K) where
  create _ := []
  insert k l := l.filter (fun x => !decide (x = k)) ++ [k]
  remove k l := l.filter (fun x => !decide (x = k))
  touch k l := if k ∈ l then l.filter (fun x => !decide (x = k)) ++ [k] else l
  victim l := (l.head?, l)
  clear _ := []
  swap a b := (b, a)
  copy l := l

/-! ## The container -/

/-- The data members of `cache<Key,Data,Policy,Compare,Allocator>`. -/
structure cache (K D P : Type) where
  _storage : storageType K D
  _maxEntries : Nat
  _currEntries : Nat
  _policy : P
deriving DecidableEq, Repr

/-- What a call of `cache::insert` produces: the returned `bool`, or the exception
`stlcache_cache_full`. -/
inductive insert_result where
  | returned (result : Bool)
  | stlcache_cache_full
deriving DecidableEq, Repr

/-- What a call of `cache::fetch` produces: the returned `Data`, the exception
`stlcache_invalid_key` with the key it carries, or the dereference of `end()`. -/
inductive fetch_result (K D : Type) where
  | returned (d : D)
  | stlcache_invalid_key (k : K)
  | deref_end
deriving DecidableEq, Repr

namespace cache

variable {K D P : Type} [DecidableEq K]

/-- The constructor `cache(size, comp)`. The policy object is copy-constructed, by
`policyAlloc.construct`, from the local `localPolicy(size)`. -/
def construct (pol : Policy K P) (size : Nat) : cache K D P :=
  { _storage := ⟨[]⟩
    _maxEntries := size
    _currEntries := 0
    _policy := pol.copy (pol.create size) }

/-- The method `clear()`. -/
def clear (pol : Policy K P) (c : cache K D P) : cache K D P :=
  { c with
    _storage := c._storage.clear
    _policy := pol.clear c._policy
    _currEntries := 0 }

/-- The method `max_size()`. -/
def max_size (c : cache K D P) : Nat := c._maxEntries

/-- The method `size()`. With `ndebug = false` the `assert` is compiled in and a
failed assertion is the result `none`; with `ndebug = true` it is compiled out. -/
def size (ndebug : Bool) (c : cache K D P) : Option Nat :=
  if ndebug || decide (c._currEntries = c._storage.size) then some c._currEntries else none

/-- The method `empty()`. -/
def empty (c : cache K D P) : Bool := c._storage.empty

/-- The method `count(x)`. -/
def count (c : cache K D P) (x : K) : Nat := c._storage.count x

/-- The method `erase(x)`: the returned count and the state afterwards. The
statement `_currEntries--` is unsigned arithmetic modulo `2 ^ w`. -/
def erase (pol : Policy K P) (w : Nat) (c : cache K D P) (x : K) : Nat × cache K D P :=
  let r := c._storage.erase x
  (r.2,
    { c with
      _storage := r.1
      _policy := pol.remove x c._policy
      _currEntries := (c._currEntries + 2 ^ w - 1) % 2 ^ w })

/-- The `while` loop of `insert`, run for at most `fuel` iterations. The result is
`none` when the loop is still running after `fuel` iterations, `some (false, c)`
when it throws `stlcache_cache_full` in state `c`, and `some (true, c)` when it
exits normally in state `c`. -/
def evict (pol : Policy K P) (w : Nat) : Nat → cache K D P → Option (Bool × cache K D P)
  | 0, c => if c._currEntries ≥ c._maxEntries then none else some (true, c)
  | fuel + 1, c =>
    if c._currEntries ≥ c._maxEntries then
      match pol.victim c._policy with
      | (none, p) => some (false, { c with _policy := p })
      | (some v, p) => evict pol w fuel (erase pol w { c with _policy := p } v).2
    else some (true, c)

/-- The method `insert(_k, _d)`, its loop bounded by `fuel`: what the call produces
and the state afterwards; `none` when the loop does not finish within `fuel`
iterations. -/
def insert (pol : Policy K P) (w : Nat) (fuel : Nat) (c : cache K D P) (_k : K) (_d : D) :
    Option (insert_result × cache K D P) :=
  match evict pol w fuel c with
  | none => none
  | some (false, c1) => some (insert_result.stlcache_cache_full, c1)
  | some (true, c1) =>
    let p := pol.insert _k c1._policy
    let r := c1._storage.insert _k _d
    some (insert_result.returned r.2,
      { c1 with
        _storage := r.1
        _policy := p
        _currEntries := if r.2 then (c1._currEntries + 1) % 2 ^ w else c1._currEntries })

/-- The method `check(_k)`: the returned `bool` and the state afterwards. -/
def check (pol : Policy K P) (c : cache K D P) (_k : K) : Bool × cache K D P :=
  let c1 := { c with _policy := pol.touch _k c._policy }
  ((c1._storage.find _k).isSome, c1)

/-- The method `fetch(_k)`: what the call produces and the state afterwards. -/
def fetch (pol : Policy K P) (c : cache K D P) (_k : K) : fetch_result K D × cache K D P :=
  let r := check pol c _k
  if !r.1 then (fetch_result.stlcache_invalid_key _k, r.2)
  else
    let c2 := { r.2 with _policy := pol.touch _k r.2._policy }
    match c2._storage.find _k with
    | some d => (fetch_result.returned d, c2)
    | none => (fetch_result.deref_end, c2)

/-- The method `touch(_k)`. -/
def touch (pol : Policy K P) (c : cache K D P) (_k : K) : cache K D P :=
  { c with _policy := pol.touch _k c._policy }

/-- The method `swap(mp)`: the states of `*this` and of `mp` afterwards; `none` when
an assertion of `size()` fails. -/
def swap (pol : Policy K P) (ndebug : Bool) (self mp : cache K D P) :
    Option (cache K D P × cache K D P) :=
  let ps := pol.swap self._policy mp._policy
  let self1 : cache K D P :=
    { _storage := mp._storage, _policy := ps.1, _maxEntries := mp._maxEntries,
      _currEntries := self._currEntries }
  let mp1 : cache K D P :=
    { _storage := self._storage, _policy := ps.2, _maxEntries := self._maxEntries,
      _currEntries := mp._currEntries }
  match size ndebug self1 with
  | none => none
  | some n =>
    match size ndebug mp1 with
    | none => none
    | some m => some ({ self1 with _currEntries := n }, { mp1 with _currEntries := m })

/-- The assignment `operator=(x)`: the state of `*this` afterwards. The local
`localPolicy` is copy-constructed from `*x._policy`, and the new policy object is
copy-constructed from `localPolicy` by `policyAlloc.construct`. -/
def assign (pol : Policy K P) (w : Nat) (_self x : cache K D P) : cache K D P :=
  { _storage := x._storage
    _maxEntries := x._maxEntries
    _currEntries := x._storage.size % 2 ^ w
    _policy := pol.copy (pol.copy x._policy) }

/-- The copy constructor `cache(x)`, which is `*this = x`. -/
def copy_construct (pol : Policy K P) (w : Nat) (x : cache K D P) : cache K D P :=
  assign pol w x x

end cache

/-! ## Sequences of container calls -/

/-- One call on a container; `swap` and `assign` carry the state of the other
container. -/
inductive Op (K D P : Type) where
  | insert (k : K) (d : D)
  | erase (k : K)
  | fetch (k : K)
  | check (k : K)
  | touch (k : K)
  | clear
  | swap (mp : cache K D P)
  | assign (x : cache K D P)

/-- The state of the container after one call; `none` when the call does not come
back (the loop of `insert` exceeds `fuel`, or an assertion fails). A call that
throws leaves the container in the state reached at the `throw`. -/
def step {K D P : Type} [DecidableEq K] (pol : Policy K P) (w : Nat) (ndebug : Bool)
    (fuel : Nat) (c : cache K D P) : Op K D P → Option (cache K D P)
  | Op.insert k d => (cache.insert pol w fuel c k d).map Prod.snd
  | Op.erase k => some (cache.erase pol w c k).2
  | Op.fetch k => some (cache.fetch pol c k).2
  | Op.check k => some (cache.check pol c k).2
  | Op.touch k => some (cache.touch pol c k)
  | Op.clear => some (cache.clear pol c)
  | Op.swap mp => (cache.swap pol ndebug c mp).map Prod.fst
  | Op.assign x => some (cache.assign pol w c x)

/-- The state of the container after a sequence of calls. -/
def run {K D P : Type} [DecidableEq K] (pol : Policy K P) (w : Nat) (ndebug : Bool)
    (fuel : Nat) : cache K D P → List (Op K D P) → Option (cache K D P)
  | c, [] => some c
  | c, op :: ops =>
    match step pol w ndebug fuel c op with
    | none => none
    | some c1 => run pol w ndebug fuel c1 ops

/-- A container state is consistent when the entry counter is the number of stored
entries, which is what the assertion of `size()` checks. -/
def cache.consistent {K D P : Type} (c : cache K D P) : Prop :=
  c._currEntries = c._storage.size

instance {K D P : Type} (c : cache K D P) : Decidable c.consistent := by
  unfold cache.consistent; infer_instance

/-- The container state over `pol` underlying a state over `pol.traced`: the call
log is dropped. -/
def cache.untraced {K D P : Type} (c : cache K D (P × List (PolicyCall K))) : cache K D P :=
  { _storage := c._storage
    _maxEntries := c._maxEntries
    _currEntries := c._currEntries
    _policy := c._policy.1 }

/-- The policy `pol` together with its set of tracked keys, kept as a list: the
keys it was notified of by `insert` and not since by `remove`; `clear` empties the
set, `swap` exchanges the two sets, the copy constructor copies the set, and a new
policy tracks nothing. -/
def Policy.tracking {K P : Type} [DecidableEq K] (pol : Policy K P) : Policy K (P × List K) where
  create n := (pol.create n, [])
  insert k s := (pol.insert k s.1, if k ∈ s.2 then s.2 else s.2 ++ [k])
  remove k s := (pol.remove k s.1, s.2.filter (fun x => !decide (x = k)))
  touch k s := (pol.touch k s.1, s.2)
  victim s := ((pol.victim s.1).1, ((pol.victim s.1).2, s.2))
  clear s := (pol.clear s.1, [])
  swap a b := (((pol.swap a.1 b.1).1, b.2), ((pol.swap a.1 b.1).2, a.2))
  copy s := (pol.copy s.1, s.2)

/-- The tracked keys of the policy are the keys present in storage. -/
def cache.synced {K D P : Type} (c : cache K D (P × List K)) : Prop :=
  (∀ x ∈ c._policy.2, x ∈ c._storage.keys) ∧ (∀ x ∈ c._storage.keys, x ∈ c._policy.2)

instance {K D P : Type} [DecidableEq K] (c : cache K D (P × List K)) : Decidable c.synced := by
  unfold cache.synced; infer_instance

/-- The other container of a `swap` or of an assignment has its tracked keys equal to
its stored keys. -/
def Op.synced {K D P : Type} : Op K D (P × List K) → Prop
  | Op.swap mp => mp.synced
  | Op.assign x => x.synced
  | _ => True

instance {K D P : Type} [DecidableEq K] (op : Op K D (P × List K)) : Decidable op.synced := by
  cases op <;> unfold Op.synced <;> infer_instance

/-! ## Concrete instances -/

/-- A freshly constructed LRU cache of capacity `n` with keys and values in `Nat`. -/
def lruCache (n : Nat) : cache Nat Nat (List Nat) := cache.construct (policy_lru Nat) n

/-- A freshly constructed cache of capacity `n` over the LRU policy with its call
log. -/
def tracedCache (n : Nat) : cache Nat Nat (List Nat × List (PolicyCall Nat)) :=
  cache.construct (policy_lru Nat).traced n

/-- The state reached from a fresh LRU cache of capacity 1 by `insert(1, 10)`. -/
def fullOne : cache Nat Nat (List Nat) :=
  { _storage := ⟨[(1, 10)]⟩, _maxEntries := 1, _currEntries := 1, _policy := [1] }

/-- A cache of capacity 2 holding key 1, over the LRU policy with its call log. -/
def tracedHalf : cache Nat Nat (List Nat × List (PolicyCall Nat)) :=
  { _storage := ⟨[(1, 10)]⟩, _maxEntries := 2, _currEntries := 1, _policy := ([1], []) }

/-- A cache of capacity 2 holding keys 1 and 2, over the LRU policy with its call
log. -/
def tracedFull : cache Nat Nat (List Nat × List (PolicyCall Nat)) :=
  { _storage := ⟨[(1, 10), (2, 20)]⟩, _maxEntries := 2, _currEntries := 2,
    _policy := ([1, 2], []) }

/-- The state reached from a fresh LRU cache of capacity 1 by `insert(1, 10)`,
`erase(2)`, `erase(2)`. -/
def drifted : cache Nat Nat (List Nat) :=
  { _storage := ⟨[(1, 10)]⟩, _maxEntries := 1, _currEntries := 2 ^ 64 - 1, _policy := [1] }

/-- A cache of capacity 2 holding key 1, over the LRU policy. -/
def halfOne : cache Nat Nat (List Nat) :=
  { _storage := ⟨[(1, 10)]⟩, _maxEntries := 2, _currEntries := 1, _policy := [1] }

/-- A cache of capacity 2 holding key 9, over the LRU policy with its tracked keys. -/
def trackingOther : cache Nat Nat (List Nat × List Nat) :=
  { _storage := ⟨[(9, 90)]⟩, _maxEntries := 2, _currEntries := 1, _policy := ([9], [9]) }

/-- A sequence of calls on a cache over the LRU policy with its tracked keys. -/
def trackingOps1 : List (Op Nat Nat (List Nat × List Nat)) :=
  [Op.insert 1 10, Op.insert 2 20, Op.fetch 1, Op.insert 3 30, Op.erase 5, Op.check 7,
    Op.insert 3 31, Op.touch 8]

/-- A continuation of `trackingOps1`. -/
def trackingOps2 : List (Op Nat Nat (List Nat × List Nat)) :=
  [Op.swap trackingOther, Op.insert 4 40, Op.clear, Op.insert 5 50,
    Op.assign trackingOther, Op.insert 6 60]

/-- The data members of a container object, with the member `_policy` as the source
has it: a pointer, here the address of a cell in a heap of policy objects. -/
structure cache_object (K D : Type) where
  _storage : storageType K D
  _maxEntries : Nat
  _currEntries : Nat
  _policy : Nat
deriving DecidableEq, Repr

namespace cache_object

variable {K D P : Type} [DecidableEq K]

/-- The container state of an object in a heap of policy objects: its members, with
the policy object `*_policy`; `none` when `_policy` points to no cell. -/
def load (heap : List P) (o : cache_object K D) : Option (cache K D P) :=
  match heap[o._policy]? with
  | none => none
  | some p =>
    some { _storage := o._storage, _maxEntries := o._maxEntries,
           _currEntries := o._currEntries, _policy := p }

/-- The assignment `operator=(x)` on objects: the heap and `*this` afterwards. The
local `localPolicy` is copy-constructed from `*x._policy`, `policyAlloc.allocate(1)`
returns the address of a new cell, and `policyAlloc.construct` copy-constructs
`localPolicy` into it; the object `x` and its policy object are only read. -/
def assign (pol : Policy K P) (w : Nat) (heap : List P) (_self x : cache_object K D) :
    Option (List P × cache_object K D) :=
  match heap[x._policy]? with
  | none => none
  | some px =>
    let localPolicy := pol.copy px
    some (heap ++ [pol.copy localPolicy],
      { _storage := x._storage
        _maxEntries := x._maxEntries
        _currEntries := x._storage.size % 2 ^ w
        _policy := heap.length })

/-- A method run on an object, where `f` is its effect on container states: the
method reads and writes the members of the object and the policy object `*_policy`,
and keeps the pointer `_policy`. -/
def apply (f : cache K D P → cache K D P) (heap : List P) (o : cache_object K D) :
    Option (List P × cache_object K D) :=
  match load heap o with
  | none => none
  | some c =>
    some (heap.set o._policy (f c)._policy,
      { _storage := (f c)._storage
        _maxEntries := (f c)._maxEntries
        _currEntries := (f c)._currEntries
        _policy := o._policy })

end cache_object

/-- A heap with the policy objects of two containers. -/
def twoHeap : List (List Nat) := [[1], [7, 8]]

/-- The object of a cache of capacity 2 holding key 1, its policy in cell 0. -/
def objectX : cache_object Nat Nat :=
  { _storage := ⟨[(1, 10)]⟩, _maxEntries := 2, _currEntries := 1, _policy := 0 }

/-- The object of a cache of capacity 5 holding keys 7 and 8, its policy in cell 1. -/
def objectSelf : cache_object Nat Nat :=
  { _storage := ⟨[(7, 70), (8, 80)]⟩, _maxEntries := 5, _currEntries := 2, _policy := 1 }

/-! ## Storage lemmas -/

namespace storageType

variable {K D : Type} [DecidableEq K]

theorem lookup_append_single (x k : K) (d : D) (l : List (K × D)) :
    lookup x (l ++ [(k, d)]) =
      match lookup x l with
      | some v => some v
      | none => if k = x then some d else none := by
  induction l with
  | nil => simp [lookup]
  | cons e es ih =>
    by_cases h : e.1 = x
    · simp [lookup, h]
    · simp [lookup, h, ih]

theorem lookup_filter_ne (x v : K) (l : List (K × D)) :
    lookup x (l.filter (fun e => !decide (e.1 = v))) = if x = v then none else lookup x l := by
  induction l with
  | nil => simp [lookup]
  | cons e es ih =>
    by_cases hv : e.1 = v
    · have hf : (e :: es).filter (fun e => !decide (e.1 = v)) =
          es.filter (fun e => !decide (e.1 = v)) := by
        simp [List.filter_cons, hv]
      rw [hf, ih]
      by_cases hx : x = v
      · simp [hx]
      · have hex : ¬ e.1 = x := fun h => hx (h ▸ hv)
        simp [hx, lookup, hex]
    · have hf : (e :: es).filter (fun e => !decide (e.1 = v)) =
          e :: es.filter (fun e => !decide (e.1 = v)) := by
        simp [List.filter_cons, hv]
      rw [hf]
      by_cases hex : e.1 = x
      · have hx : ¬ x = v := fun h => hv (hex.trans h)
        simp [lookup, hex, hx]
      · simp only [lookup, hex, if_false]
        exact ih

theorem find_insert_absent (s : storageType K D) (k : K) (d : D) (h : s.find k = none) :
    s.insert k d = (⟨s.entries ++ [(k, d)]⟩, true) := by
  simp [insert, h]

theorem find_insert_present (s : storageType K D) (k : K) (d d0 : D)
    (h : s.find k = some d0) : s.insert k d = (s, false) := by
  simp [insert, h]

theorem find_after_insert (s : storageType K D) (k : K) (d : D) (h : s.find k = none)
    (x : K) : (s.insert k d).1.find x = if x = k then some d else s.find x := by
  rw [find_insert_absent s k d h]
  show lookup x (s.entries ++ [(k, d)]) = _
  rw [lookup_append_single]
  by_cases hx : x = k
  · subst hx
    have h1 : lookup x s.entries = none := h
    simp [h1]
  · have hx1 : ¬ k = x := fun e => hx e.symm
    cases hl : lookup x s.entries <;> simp [find, hl, hx, hx1]

theorem find_after_erase (s : storageType K D) (v x : K) :
    (s.erase v).1.find x = if x = v then none else s.find x :=
  lookup_filter_ne x v s.entries

theorem length_filter_split (x : K) (l : List (K × D)) :
    (l.filter (fun e => !decide (e.1 = x))).length +
      (l.filter (fun e => decide (e.1 = x))).length = l.length := by
  induction l with
  | nil => rfl
  | cons e es ih =>
    by_cases h : e.1 = x
    · simp only [List.filter_cons, h, decide_True, Bool.not_true, if_true, List.length_cons]
      simp only [Bool.false_eq_true, if_false]
      omega
    · simp only [List.filter_cons, h, decide_False, Bool.not_false, if_true, List.length_cons]
      simp only [Bool.false_eq_true, if_false]
      omega

theorem size_erase (s : storageType K D) (v : K) :
    (s.erase v).1.size + (s.erase v).2 = s.size :=
  length_filter_split v s.entries

theorem lookup_none_filter_length (x : K) (l : List (K × D)) (h : lookup x l = none) :
    (l.filter (fun e => decide (e.1 = x))).length = 0 := by
  induction l with
  | nil => rfl
  | cons e es ih =>
    by_cases he : e.1 = x
    · simp [lookup, he] at h
    · simp only [lookup, he, if_false] at h
      simp only [List.filter_cons, he, decide_False, Bool.false_eq_true, if_false]
      exact ih h

theorem lookup_some_mem_keys (x : K) (d : D) (l : List (K × D)) (h : lookup x l = some d) :
    x ∈ l.map Prod.fst := by
  induction l with
  | nil => simp [lookup] at h
  | cons e es ih =>
    by_cases he : e.1 = x
    · simp [he]
    · simp only [lookup, he, if_false] at h
      simp only [List.map_cons, List.mem_cons]
      exact Or.inr (ih h)

theorem lookup_some_filter_length (x : K) (d : D) (l : List (K × D))
    (hnd : (l.map Prod.fst).Nodup) (h : lookup x l = some d) :
    (l.filter (fun e => decide (e.1 = x))).length = 1 := by
  induction l with
  | nil => simp [lookup] at h
  | cons e es ih =>
    simp only [List.map_cons, List.nodup_cons] at hnd
    by_cases he : e.1 = x
    · have hnone : lookup x es = none := by
        cases hl : lookup x es with
        | none => rfl
        | some d1 =>
          exact absurd (he ▸ lookup_some_mem_keys x d1 es hl) hnd.1
      simp only [List.filter_cons, he, decide_True, if_true, List.length_cons]
      rw [lookup_none_filter_length x es hnone]
    · simp only [lookup, he, if_false] at h
      simp only [List.filter_cons, he, decide_False, Bool.false_eq_true, if_false]
      exact ih hnd.2 h

theorem count_eq_zero_of_find_none (s : storageType K D) (x : K) (h : s.find x = none) :
    s.count x = 0 :=
  lookup_none_filter_length x s.entries h

theorem count_eq_one_of_find_some (s : storageType K D) (x : K) (d : D) (hwf : s.wf)
    (h : s.find x = some d) : s.count x = 1 :=
  lookup_some_filter_length x d s.entries hwf h

theorem lookup_of_mem_keys (x : K) (l : List (K × D)) (h : x ∈ l.map Prod.fst) :
    ∃ d, lookup x l = some d := by
  induction l with
  | nil => simp at h
  | cons e es ih =>
    by_cases he : e.1 = x
    · exact ⟨e.2, by simp [lookup, he]⟩
    · simp only [List.map_cons, List.mem_cons] at h
      rcases h with h | h
      · exact absurd h.symm he
      · obtain ⟨d, hd⟩ := ih h
        exact ⟨d, by simp [lookup, he, hd]⟩

theorem find_none_not_mem_keys (s : storageType K D) (x : K) (h : s.find x = none) :
    x ∉ s.keys := by
  intro hm
  obtain ⟨d, hd⟩ := lookup_of_mem_keys x s.entries hm
  have h1 : lookup x s.entries = none := h
  rw [h1] at hd
  cases hd

theorem find_some_mem_keys (s : storageType K D) (x : K) (d : D) (h : s.find x = some d) :
    x ∈ s.keys :=
  lookup_some_mem_keys x d s.entries h

theorem mem_keys_erase (s : storageType K D) (v x : K) :
    x ∈ (s.erase v).1.keys ↔ x ∈ s.keys ∧ x ≠ v := by
  simp only [erase, keys, List.mem_map, List.mem_filter, Bool.not_eq_true', decide_eq_false_iff_not]
  constructor
  · rintro ⟨e, ⟨he, hne⟩, rfl⟩
    exact ⟨⟨e, he, rfl⟩, hne⟩
  · rintro ⟨⟨e, he, rfl⟩, hne⟩
    exact ⟨e, ⟨he, hne⟩, rfl⟩

theorem mem_keys_insert (s : storageType K D) (k x : K) (d : D) :
    x ∈ (s.insert k d).1.keys ↔ x ∈ s.keys ∨ x = k := by
  cases h : s.find k with
  | none =>
    rw [find_insert_absent s k d h]
    simp [keys]
  | some d0 =>
    rw [find_insert_present s k d d0 h]
    have hk := find_some_mem_keys s k d0 h
    constructor
    · exact fun hx => Or.inl hx
    · rintro (hx | rfl)
      · exact hx
      · exact hk

theorem wf_erase (s : storageType K D) (v : K) (h : s.wf) : (s.erase v).1.wf := by
  unfold wf keys at *
  exact h.sublist (List.Sublist.map _ (List.filter_sublist _))

theorem wf_insert (s : storageType K D) (k : K) (d : D) (h : s.wf) : (s.insert k d).1.wf := by
  cases hf : s.find k with
  | none =>
    rw [find_insert_absent s k d hf]
    have hk := find_none_not_mem_keys s k hf
    unfold wf keys at *
    rw [List.map_append, List.nodup_append]
    refine ⟨h, by simp, ?_⟩
    intro a ha hb
    simp only [List.map_cons, List.map_nil, List.mem_singleton] at hb
    exact hk (hb ▸ ha)
  | some d0 =>
    rw [find_insert_present s k d d0 hf]
    exact h

end storageType

/-! ## The eviction loop and `insert` below capacity -/

namespace cache

variable {K D P : Type} [DecidableEq K]

theorem evict_of_lt (pol : Policy K P) (w fuel : Nat) (c : cache K D P)
    (h : c._currEntries < c._maxEntries) : evict pol w fuel c = some (true, c) := by
  have h1 : ¬ c._currEntries ≥ c._maxEntries := Nat.not_le.mpr h
  cases fuel <;> simp [evict, h1]

theorem evict_succ_none (pol : Policy K P) (w fuel : Nat) (c : cache K D P)
    (h : c._currEntries ≥ c._maxEntries) (hv : (pol.victim c._policy).1 = none) :
    evict pol w (fuel + 1) c = some (false, { c with _policy := (pol.victim c._policy).2 }) := by
  rcases hp : pol.victim c._policy with ⟨o, p⟩
  rw [hp] at hv
  simp only at hv
  subst hv
  simp [evict, h, hp]

theorem evict_succ_some (pol : Policy K P) (w fuel : Nat) (c : cache K D P) (v : K)
    (h : c._currEntries ≥ c._maxEntries) (hv : (pol.victim c._policy).1 = some v) :
    evict pol w (fuel + 1) c =
      evict pol w fuel (erase pol w { c with _policy := (pol.victim c._policy).2 } v).2 := by
  rcases hp : pol.victim c._policy with ⟨o, p⟩
  rw [hp] at hv
  simp only at hv
  subst hv
  simp [evict, h, hp]

theorem insert_of_lt (pol : Policy K P) (w fuel : Nat) (c : cache K D P) (k : K) (d : D)
    (h : c._currEntries < c._maxEntries) :
    insert pol w fuel c k d =
      some (insert_result.returned (c._storage.insert k d).2,
        { c with
          _storage := (c._storage.insert k d).1
          _policy := pol.insert k c._policy
          _currEntries :=
            if (c._storage.insert k d).2 then (c._currEntries + 1) % 2 ^ w
            else c._currEntries }) := by
  simp [insert, evict_of_lt pol w fuel c h]

theorem dec_mod (w m : Nat) (h1 : 1 ≤ m) (h2 : m < 2 ^ w) :
    (m + 2 ^ w - 1) % 2 ^ w = m - 1 := by
  have e : m + 2 ^ w - 1 = (m - 1) + 2 ^ w := by omega
  rw [e, Nat.add_mod_right, Nat.mod_eq_of_lt (by omega)]

theorem insert_evict_one (pol : Policy K P) (w fuel : Nat) (c : cache K D P) (k v : K) (d : D)
    (hfull : c._currEntries = c._maxEntries) (hpos : 1 ≤ c._maxEntries)
    (hmax : c._maxEntries < 2 ^ w) (hk : c._storage.find k = none)
    (hv : (pol.victim c._policy).1 = some v) :
    insert pol w (fuel + 1) c k d =
      some (insert_result.returned true,
        { _storage := ⟨(c._storage.erase v).1.entries ++ [(k, d)]⟩
          _maxEntries := c._maxEntries
          _currEntries := c._maxEntries
          _policy := pol.insert k (pol.remove v (pol.victim c._policy).2) }) := by
  have hge : c._currEntries ≥ c._maxEntries := by omega
  have hdec : (c._currEntries + 2 ^ w - 1) % 2 ^ w = c._maxEntries - 1 := by
    rw [hfull]; exact dec_mod w _ hpos hmax
  have hk1 : (c._storage.erase v).1.find k = none := by
    rw [storageType.find_after_erase, hk]; simp
  have hinc : (c._maxEntries - 1 + 1) % 2 ^ w = c._maxEntries := by
    rw [Nat.sub_add_cancel hpos, Nat.mod_eq_of_lt hmax]
  unfold insert
  rw [evict_succ_some pol w fuel c v hge hv]
  rw [evict_of_lt]
  · simp only [erase, hdec]
    rw [storageType.find_insert_absent _ k d hk1]
    simp [hinc]
  · simp only [erase, hdec]
    omega

/-- Logging the policy calls does not change what the eviction loop does. -/
theorem evict_untraced (pol : Policy K P) (w fuel : Nat)
    (c : cache K D (P × List (PolicyCall K))) :
    (evict pol.traced w fuel c).map (fun r => (r.1, r.2.untraced)) =
      evict pol w fuel c.untraced := by
  induction fuel generalizing c with
  | zero =>
    by_cases h : c._currEntries ≥ c._maxEntries
    · simp [evict, untraced, h]
    · simp [evict, untraced, h]
  | succ n ih =>
    by_cases h : c._currEntries ≥ c._maxEntries
    · rcases hp : pol.victim c._policy.1 with ⟨o, p⟩
      cases o with
      | none => simp [evict, untraced, h, Policy.traced, hp]
      | some v =>
        have := ih (erase pol.traced w
          { c with _policy := (p, c._policy.2 ++ [PolicyCall.victim]) } v).2
        simpa [evict, untraced, h, Policy.traced, hp, erase] using this
    · simp [evict, untraced, h]

/-- Logging the policy calls does not change what `insert` does. -/
theorem insert_untraced (pol : Policy K P) (w fuel : Nat)
    (c : cache K D (P × List (PolicyCall K))) (k : K) (d : D) :
    (insert pol.traced w fuel c k d).map (fun r => (r.1, r.2.untraced)) =
      insert pol w fuel c.untraced k d := by
  have h := evict_untraced pol w fuel c
  unfold insert
  rcases he : evict pol.traced w fuel c with _ | ⟨b, c1⟩
  · rw [he] at h
    simp only [Option.map_none'] at h
    rw [← h]
    rfl
  · rw [he] at h
    simp only [Option.map_some'] at h
    rw [← h]
    cases b <;> simp [untraced, Policy.traced]

/-- The policy calls made by the loop: only `victim()` and `remove`, with at most one
`victim()` per iteration. -/
theorem evict_traced_log (pol : Policy K P) (w fuel : Nat)
    (c : cache K D (P × List (PolicyCall K))) (b : Bool)
    (c1 : cache K D (P × List (PolicyCall K)))
    (h : evict pol.traced w fuel c = some (b, c1)) :
    ∃ l, c1._policy.2 = c._policy.2 ++ l ∧ l.count PolicyCall.victim ≤ fuel ∧
      ∀ e ∈ l, e = PolicyCall.victim ∨ ∃ v, e = PolicyCall.remove v := by
  induction fuel generalizing c with
  | zero =>
    by_cases hc : c._currEntries ≥ c._maxEntries
    · simp [evict, hc] at h
    · simp only [evict, hc, if_false, Option.some.injEq, Prod.mk.injEq] at h
      exact ⟨[], by simp [← h.2], by simp, by simp⟩
  | succ n ih =>
    by_cases hc : c._currEntries ≥ c._maxEntries
    · rcases hp : pol.victim c._policy.1 with ⟨o, p⟩
      cases o with
      | none =>
        simp only [evict, hc, if_true, Policy.traced, hp, Option.some.injEq,
          Prod.mk.injEq] at h
        refine ⟨[PolicyCall.victim], by simp [← h.2], by simp, by simp⟩
      | some v =>
        simp only [evict, hc, if_true, Policy.traced, hp] at h
        obtain ⟨l, hl, hcnt, hall⟩ := ih _ h
        refine ⟨PolicyCall.victim :: PolicyCall.remove v :: l, ?_, ?_, ?_⟩
        · rw [hl]
          simp [erase]
        · simp only [List.count_cons_self, List.count_cons]
          simp only [beq_iff_eq, reduceCtorEq, if_false]
          omega
        · intro e he
          simp only [List.mem_cons] at he
          rcases he with rfl | rfl | he
          · exact Or.inl rfl
          · exact Or.inr ⟨v, rfl⟩
          · exact hall e he
    · simp only [evict, hc, if_false, Option.some.injEq, Prod.mk.injEq] at h
      exact ⟨[], by simp [← h.2], by simp, by simp⟩

theorem insert_succ_some (pol : Policy K P) (w fuel : Nat) (c : cache K D P) (k v : K) (d : D)
    (h : c._currEntries ≥ c._maxEntries) (hv : (pol.victim c._policy).1 = some v) :
    insert pol w (fuel + 1) c k d =
      insert pol w fuel (erase pol w { c with _policy := (pol.victim c._policy).2 } v).2 k d := by
  unfold insert
  rw [evict_succ_some pol w fuel c v h hv]

/-- Below capacity, `insert` keeps the counter equal to the number of entries, within
the capacity, and the storage a map. -/
theorem insert_inv_of_lt (pol : Policy K P) (w fuel : Nat) (c : cache K D P) (k : K) (d : D)
    (hc : c.consistent) (hwf : c._storage.wf) (hlt : c._currEntries < c._maxEntries)
    (hmax : c._maxEntries < 2 ^ w) :
    ∃ r c1, insert pol w fuel c k d = some (r, c1) ∧ c1.consistent ∧
      c1._currEntries ≤ c1._maxEntries ∧ c1._maxEntries = c._maxEntries ∧ c1._storage.wf := by
  have hmod : (c._currEntries + 1) % 2 ^ w = c._currEntries + 1 :=
    Nat.mod_eq_of_lt (by omega)
  have hc1 : c._currEntries = c._storage.entries.length := hc
  refine ⟨_, _, insert_of_lt pol w fuel c k d hlt, ?_, ?_, rfl, ?_⟩
  · cases hf : c._storage.find k with
    | none =>
      rw [storageType.find_insert_absent _ k d hf]
      simp only [consistent, if_true, hmod, storageType.size, List.length_append,
        List.length_singleton]
      omega
    | some d0 =>
      rw [storageType.find_insert_present _ k d d0 hf]
      simpa [consistent] using hc
  · cases hf : c._storage.find k with
    | none =>
      rw [storageType.find_insert_absent _ k d hf]
      simp only [if_true, hmod]
      omega
    | some d0 =>
      rw [storageType.find_insert_present _ k d d0 hf]
      simp only [Bool.false_eq_true, if_false]
      omega
  · exact storageType.wf_insert c._storage k d hwf

end cache

/-- Two swaps in a row, over a policy whose `swap` exchanges its two states. With
assertions compiled out they give back the pair of containers as it was. With
assertions compiled in they do so exactly when both containers are consistent and
hold the same number of entries; otherwise an assertion of `size()` fails. -/
theorem cache.swap_swap {K D P : Type} (pol : Policy K P) (a b : cache K D P)
    (hswap : ∀ p q, pol.swap p q = (q, p)) :
    (cache.swap pol true a b).bind (fun r => cache.swap pol true r.1 r.2) = some (a, b) ∧
      (cache.swap pol false a b).bind (fun r => cache.swap pol false r.1 r.2) =
        if a.consistent ∧ b.consistent ∧ a._storage.size = b._storage.size then some (a, b)
        else none := by
  obtain ⟨sa, ma, ca, pa⟩ := a
  obtain ⟨sb, mb, cb, pb⟩ := b
  constructor
  · simp [cache.swap, cache.size, hswap]
  · simp only [cache.consistent]
    by_cases h1 : ca = sb.size
    · by_cases h2 : cb = sa.size
      · subst h1 h2
        by_cases h5 : sa.size = sb.size
        · simp [cache.swap, cache.size, hswap, h5]
        · have h6 : ¬ sb.size = sa.size := fun h => h5 h.symm
          simp [cache.swap, cache.size, hswap, h5, h6]
      · have hn : ¬ (ca = sa.size ∧ cb = sb.size ∧ sa.size = sb.size) := fun h => h2 (by omega)
        rw [if_neg hn]
        simp [cache.swap, cache.size, hswap, h1, h2]
    · have hn : ¬ (ca = sa.size ∧ cb = sb.size ∧ sa.size = sb.size) := fun h => h1 (by omega)
      rw [if_neg hn]
      simp [cache.swap, cache.size, hswap, h1]

/-! ## Tracked keys and stored keys -/

theorem run_append {K D P : Type} [DecidableEq K] (pol : Policy K P) (w : Nat) (ndebug : Bool)
    (fuel : Nat) (c : cache K D P) (ops1 ops2 : List (Op K D P)) :
    run pol w ndebug fuel c (ops1 ++ ops2) =
      (run pol w ndebug fuel c ops1).bind (fun c1 => run pol w ndebug fuel c1 ops2) := by
  induction ops1 generalizing c with
  | nil => rfl
  | cons op ops ih =>
    simp only [List.cons_append, run]
    cases step pol w ndebug fuel c op with
    | none => rfl
    | some c1 => exact ih c1

theorem cache.synced_iff {K D P : Type} (c : cache K D (P × List K)) :
    c.synced ↔ ∀ x, x ∈ c._policy.2 ↔ x ∈ c._storage.keys :=
  ⟨fun h x => ⟨h.1 x, h.2 x⟩, fun h => ⟨fun x => (h x).1, fun x => (h x).2⟩⟩

namespace cache

variable {K D P : Type} [DecidableEq K]

theorem synced_erase (pol : Policy K P) (w : Nat) (c : cache K D (P × List K)) (v : K)
    (h : c.synced) : (erase pol.tracking w c v).2.synced := by
  rw [synced_iff] at h ⊢
  intro x
  simp only [erase, Policy.tracking, storageType.mem_keys_erase, List.mem_filter,
    Bool.not_eq_true', decide_eq_false_iff_not, h x]

theorem synced_evict (pol : Policy K P) (w fuel : Nat) (c c1 : cache K D (P × List K))
    (b : Bool) (h : c.synced) (he : evict pol.tracking w fuel c = some (b, c1)) :
    c1.synced := by
  induction fuel generalizing c with
  | zero =>
    by_cases hc : c._currEntries ≥ c._maxEntries
    · simp [evict, hc] at he
    · simp only [evict, hc, if_false, Option.some.injEq, Prod.mk.injEq] at he
      exact he.2 ▸ h
  | succ n ih =>
    by_cases hc : c._currEntries ≥ c._maxEntries
    · rcases hp : pol.victim c._policy.1 with ⟨o, p⟩
      cases o with
      | none =>
        simp only [evict, hc, if_true, Policy.tracking, hp, Option.some.injEq,
          Prod.mk.injEq] at he
        rw [← he.2]
        exact h
      | some v =>
        simp only [evict, hc, if_true, Policy.tracking, hp] at he
        have h1 : (erase pol.tracking w { c with _policy := (p, c._policy.2) } v).2.synced :=
          synced_erase pol w _ v h
        exact ih _ h1 he
    · simp only [evict, hc, if_false, Option.some.injEq, Prod.mk.injEq] at he
      exact he.2 ▸ h

theorem synced_insert (pol : Policy K P) (w fuel : Nat) (c c1 : cache K D (P × List K))
    (k : K) (d : D) (r : insert_result) (h : c.synced)
    (hi : insert pol.tracking w fuel c k d = some (r, c1)) : c1.synced := by
  unfold insert at hi
  rcases he : evict pol.tracking w fuel c with _ | ⟨b, c2⟩
  · rw [he] at hi
    cases hi
  · rw [he] at hi
    have h2 : c2.synced := synced_evict pol w fuel c c2 b h he
    cases b with
    | false =>
      simp only [Option.some.injEq, Prod.mk.injEq] at hi
      exact hi.2 ▸ h2
    | true =>
      simp only [Option.some.injEq, Prod.mk.injEq] at hi
      rw [← hi.2]
      rw [synced_iff] at h2 ⊢
      intro x
      simp only [storageType.mem_keys_insert, Policy.tracking, ← h2 x]
      by_cases hk : k ∈ c2._policy.2
      · simp only [hk, if_true]
        constructor
        · exact fun hx => Or.inl hx
        · rintro (hx | rfl)
          · exact hx
          · exact hk
      · simp [hk]

theorem synced_step (pol : Policy K P) (w : Nat) (ndebug : Bool) (fuel : Nat)
    (c c1 : cache K D (P × List K)) (op : Op K D (P × List K)) (h : c.synced)
    (hop : op.synced) (hs : step pol.tracking w ndebug fuel c op = some c1) : c1.synced := by
  cases op with
  | insert k d =>
    simp only [step, Option.map_eq_some', Prod.exists, exists_eq_right] at hs
    obtain ⟨r, hr⟩ := hs
    exact synced_insert pol w fuel c c1 k d r h hr
  | erase k =>
    simp only [step, Option.some.injEq] at hs
    exact hs ▸ synced_erase pol w c k h
  | fetch k =>
    simp only [step, Option.some.injEq] at hs
    rw [← hs]
    unfold fetch check
    cases hf : c._storage.find k <;> simpa [synced, hf, Policy.tracking] using h
  | check k =>
    simp only [step, Option.some.injEq] at hs
    rw [← hs]
    exact h
  | touch k =>
    simp only [step, Option.some.injEq] at hs
    rw [← hs]
    exact h
  | clear =>
    simp only [step, Option.some.injEq] at hs
    rw [← hs]
    simp [synced, clear, Policy.tracking, storageType.clear, storageType.keys]
  | swap mp =>
    have hmp : mp.synced := hop
    simp only [step, swap] at hs
    cases h1 : size ndebug
        ({ _storage := mp._storage, _policy := (pol.tracking.swap c._policy mp._policy).1,
           _maxEntries := mp._maxEntries, _currEntries := c._currEntries } :
          cache K D (P × List K)) with
    | none => simp [h1] at hs
    | some n =>
      cases h2 : size ndebug
          ({ _storage := c._storage, _policy := (pol.tracking.swap c._policy mp._policy).2,
             _maxEntries := c._maxEntries, _currEntries := mp._currEntries } :
            cache K D (P × List K)) with
      | none => simp [h1, h2] at hs
      | some m =>
        simp only [h1, h2, Option.map_some', Option.some.injEq] at hs
        rw [← hs]
        exact hmp
  | assign x =>
    have hx : x.synced := hop
    simp only [step, Option.some.injEq] at hs
    rw [← hs]
    exact hx

theorem synced_run (pol : Policy K P) (w : Nat) (ndebug : Bool) (fuel : Nat)
    (c c1 : cache K D (P × List K)) (ops : List (Op K D (P × List K))) (h : c.synced)
    (hops : ∀ op ∈ ops, op.synced) (hr : run pol.tracking w ndebug fuel c ops = some c1) :
    c1.synced := by
  induction ops generalizing c with
  | nil =>
    simp only [run, Option.some.injEq] at hr
    exact hr ▸ h
  | cons op ops ih =>
    simp only [run] at hr
    cases hs : step pol.tracking w ndebug fuel c op with
    | none => simp [hs] at hr
    | some c2 =>
      simp only [hs] at hr
      exact ih c2 (synced_step pol w ndebug fuel c c2 op h (hops op (by simp)) hs)
        (fun o ho => hops o (by simp [ho])) hr

end cache

/-! ## The claims -/

/-- C1 (the code breaks the consistency invariant). On a freshly constructed cache of
capacity 1 the single call `erase(0)`, of a key that is not stored, leaves the entry
counter at `2 ^ 64 - 1` while the storage holds no entry: the state is not
consistent and the assertion of `size()` fails. -/
theorem C1_erase_of_absent_key_breaks_consistency :
    run (policy_lru Nat) 64 false 8 (lruCache 1) [Op.erase 0] =
        some { _storage := ⟨[]⟩, _maxEntries := 1, _currEntries := 2 ^ 64 - 1, _policy := [] } ∧
      (run (policy_lru Nat) 64 false 8 (lruCache 1) [Op.erase 0]).map
          (fun c => (c._currEntries, c._storage.size, decide c.consistent, cache.size false c)) =
        some (18446744073709551615, 0, false, none) := by
  constructor <;> decide

/-- C2 (the code breaks the capacity invariant). With the LRU policy, on a fresh
cache of capacity 2 the calls `insert(1,10)`, `insert(2,20)`, `erase(3)`,
`insert(4,40)` all return and leave 3 entries in a storage whose `max_size()` is 2;
and on a fresh cache of capacity 1 the call `erase(0)` leaves a counter, the value
`size()` reports when assertions are compiled out, of `2 ^ 64 - 1 > 1`. -/
theorem C2_erase_of_absent_key_breaks_capacity :
    (run (policy_lru Nat) 64 false 8 (lruCache 2)
          [Op.insert 1 10, Op.insert 2 20, Op.erase 3, Op.insert 4 40]).map
        (fun c => (c._storage.entries, c._storage.size, c.max_size, c._currEntries)) =
      some ([(1, 10), (2, 20), (4, 40)], 3, 2, 2) ∧
    (run (policy_lru Nat) 64 true 8 (lruCache 1) [Op.erase 0]).map
        (fun c => (cache.size true c, c.max_size)) =
      some (some 18446744073709551615, 1) := by
  constructor <;> decide

/-- C3 (counterexample). The state `fullOne` is reached from a fresh LRU cache of
capacity 1 by `insert(1, 10)`; key 1 is stored in it with value 10, yet
`insert(1, 20)` evicts key 1, returns `true` and stores the value 20. -/
theorem C3_duplicate_insert_at_capacity_evicts :
    run (policy_lru Nat) 64 false 8 (lruCache 1) [Op.insert 1 10] = some fullOne ∧
      fullOne._storage.find 1 = some 10 ∧
      cache.insert (policy_lru Nat) 64 8 fullOne 1 20 =
        some (insert_result.returned true,
          { _storage := ⟨[(1, 20)]⟩, _maxEntries := 1, _currEntries := 1, _policy := [1] }) ∧
      ¬ ∃ c1, cache.insert (policy_lru Nat) 64 8 fullOne 1 20 =
          some (insert_result.returned false, c1) ∧ c1._storage = fullOne._storage := by
  refine ⟨by decide, by decide, by decide, ?_⟩
  rintro ⟨c1, h, -⟩
  have h2 : cache.insert (policy_lru Nat) 64 8 fullOne 1 20 =
      some (insert_result.returned true,
        { _storage := ⟨[(1, 20)]⟩, _maxEntries := 1, _currEntries := 1, _policy := [1] }) := by
    decide
  rw [h2] at h
  simp at h

/-- C3 (amended). For every cache state whose entry counter is below `max_size()`
and every key already present in storage, `insert(key, value)` returns `false` and
leaves the storage map, the entry counter and `max_size()` exactly as they were; the
policy is notified of the insert. -/
theorem C3_duplicate_insert_below_capacity {K D P : Type} [DecidableEq K]
    (pol : Policy K P) (w fuel : Nat) (c : cache K D P) (k : K) (d d0 : D)
    (hlt : c._currEntries < c._maxEntries) (hk : c._storage.find k = some d0) :
    cache.insert pol w fuel c k d =
      some (insert_result.returned false, { c with _policy := pol.insert k c._policy }) := by
  rw [cache.insert_of_lt pol w fuel c k d hlt, storageType.find_insert_present _ k d d0 hk]
  simp

/-- C3 (amended) at a concrete input: `insert(1, 20)` into `halfOne`, a cache of
capacity 2 that stores key 1. -/
theorem C3_duplicate_insert_below_capacity_witness :
    halfOne._currEntries < halfOne._maxEntries ∧ halfOne._storage.find 1 = some 10 ∧
      cache.insert (policy_lru Nat) 64 0 halfOne 1 20 =
        some (insert_result.returned false,
          { halfOne with _policy := (policy_lru Nat).insert 1 halfOne._policy }) :=
  ⟨by decide, by decide,
    C3_duplicate_insert_below_capacity (policy_lru Nat) 64 0 halfOne 1 20 10
      (by decide) (by decide)⟩

/-- C4. For every consistent cache state with `size() < max_size()` (a
`std::size_t`, so below `2 ^ w`) and every key absent from storage,
`insert(key, value)` returns `true` for any loop bound; the
only policy call is `insert(key)` (no `victim()`, no `remove`); the storage is the
old one plus the entry `key -> value`, every other lookup is unchanged, `max_size()`
is unchanged, and the counter and `size()` increase by exactly 1. -/
theorem C4_insert_below_capacity {K D P : Type} [DecidableEq K]
    (pol : Policy K P) (w fuel : Nat) (c : cache K D (P × List (PolicyCall K))) (k : K) (d : D)
    (hc : c.consistent) (hlt : c._currEntries < c._maxEntries) (hmax : c._maxEntries < 2 ^ w)
    (hk : c._storage.find k = none) :
    ∃ c1, cache.insert pol.traced w fuel c k d = some (insert_result.returned true, c1) ∧
      c1._storage.entries = c._storage.entries ++ [(k, d)] ∧
      (∀ x, c1._storage.find x = if x = k then some d else c._storage.find x) ∧
      c1._storage.size = c._storage.size + 1 ∧
      c1._maxEntries = c._maxEntries ∧
      c1._currEntries = c._currEntries + 1 ∧
      c1._policy = (pol.insert k c._policy.1, c._policy.2 ++ [PolicyCall.insert k]) ∧
      cache.size false c = some c._currEntries ∧
      cache.size false c1 = some (c._currEntries + 1) := by
  have hmod : (c._currEntries + 1) % 2 ^ w = c._currEntries + 1 :=
    Nat.mod_eq_of_lt (by omega)
  have hc1 : c._currEntries = c._storage.entries.length := hc
  have hfa := storageType.find_after_insert c._storage k d hk
  rw [storageType.find_insert_absent _ k d hk] at hfa
  rw [cache.insert_of_lt pol.traced w fuel c k d hlt,
    storageType.find_insert_absent _ k d hk]
  refine ⟨_, rfl, rfl, hfa, ?_, rfl, ?_, rfl, ?_, ?_⟩
  · simp [storageType.size]
  · simp [hmod]
  · simp [cache.size, hc1, storageType.size]
  · have hmod1 : (c._storage.entries.length + 1) % 2 ^ w = c._storage.entries.length + 1 :=
      hc1 ▸ hmod
    simp [cache.size, hmod, hmod1, hc1, storageType.size]

/-- C4 at a concrete input: inserting key 2 into `tracedHalf`. -/
theorem C4_insert_below_capacity_witness :
    tracedHalf.consistent ∧ tracedHalf._currEntries < tracedHalf._maxEntries ∧
      tracedHalf._maxEntries < 2 ^ 64 ∧ tracedHalf._storage.find 2 = none ∧
      ∃ c1, cache.insert (policy_lru Nat).traced 64 0 tracedHalf 2 20 =
          some (insert_result.returned true, c1) ∧
        c1._storage.entries = tracedHalf._storage.entries ++ [(2, 20)] ∧
        (∀ x, c1._storage.find x = if x = 2 then some 20 else tracedHalf._storage.find x) ∧
        c1._storage.size = tracedHalf._storage.size + 1 ∧
        c1._maxEntries = tracedHalf._maxEntries ∧
        c1._currEntries = tracedHalf._currEntries + 1 ∧
        c1._policy = ((policy_lru Nat).insert 2 tracedHalf._policy.1,
          tracedHalf._policy.2 ++ [PolicyCall.insert 2]) ∧
        cache.size false tracedHalf = some tracedHalf._currEntries ∧
        cache.size false c1 = some (tracedHalf._currEntries + 1) :=
  ⟨by decide, by decide, by decide, by decide,
    C4_insert_below_capacity (policy_lru Nat) 64 0 tracedHalf 2 20
      (by decide) (by decide) (by decide) (by decide)⟩

/-- C5. For every consistent cache state with `size() == max_size() >= 1` (a
`std::size_t`, so below `2 ^ w`), every key absent from storage and a policy
whose `victim()` returns a key `v` present in storage, `insert(key, value)` returns `true` once the loop may run one iteration; the
policy calls are exactly `victim()`, `remove(v)`, `insert(key)` in this order; the
storage is the old one without `v` plus `key -> value`, with the same number of
entries; the counter and `size()` equal `max_size()`. The victim is whatever the
policy answers, for every policy. -/
theorem C5_insert_at_capacity_evicts_victim {K D P : Type} [DecidableEq K]
    (pol : Policy K P) (w fuel : Nat) (c : cache K D (P × List (PolicyCall K))) (k v : K)
    (d dv : D) (hc : c.consistent) (hwf : c._storage.wf)
    (hfull : c._currEntries = c._maxEntries) (hpos : 1 ≤ c._maxEntries)
    (hmax : c._maxEntries < 2 ^ w) (hk : c._storage.find k = none)
    (hv : (pol.victim c._policy.1).1 = some v) (hpres : c._storage.find v = some dv) :
    ∃ c1, cache.insert pol.traced w (fuel + 1) c k d = some (insert_result.returned true, c1) ∧
      c1._storage.entries =
        c._storage.entries.filter (fun e => !decide (e.1 = v)) ++ [(k, d)] ∧
      (∀ x, c1._storage.find x =
        if x = k then some d else if x = v then none else c._storage.find x) ∧
      c1._storage.size = c._storage.size ∧
      c1._maxEntries = c._maxEntries ∧
      c1._currEntries = c._maxEntries ∧
      c1._policy = (pol.insert k (pol.remove v (pol.victim c._policy.1).2),
        c._policy.2 ++ [PolicyCall.victim, PolicyCall.remove v, PolicyCall.insert k]) ∧
      cache.size false c = some c._maxEntries ∧
      cache.size false c1 = some c._maxEntries := by
  have hk1 : (c._storage.erase v).1.find k = none := by
    rw [storageType.find_after_erase, hk]; simp
  have hcnt : (c._storage.erase v).2 = 1 :=
    storageType.count_eq_one_of_find_some c._storage v dv hwf hpres
  have hsz := storageType.size_erase c._storage v
  rw [hcnt] at hsz
  have hc1 : c._currEntries = c._storage.size := hc
  have hsize : (⟨(c._storage.erase v).1.entries ++ [(k, d)]⟩ : storageType K D).size =
      c._storage.size := by
    simp only [storageType.size, List.length_append, List.length_singleton] at hsz ⊢
    exact hsz
  refine ⟨_, cache.insert_evict_one pol.traced w fuel c k v d hfull hpos hmax hk hv, ?_⟩
  refine ⟨rfl, ?_, hsize, rfl, rfl, ?_, ?_, ?_⟩
  · intro x
    have hfa := storageType.find_after_insert (c._storage.erase v).1 k d hk1 x
    rw [storageType.find_insert_absent _ k d hk1] at hfa
    rw [hfa, storageType.find_after_erase]
  · simp [Policy.traced]
  · simp [cache.size, ← hc1, hfull]
  · have hms : c._maxEntries = c._storage.size := hfull ▸ hc1
    simp [cache.size, hsize, hms]

/-- C5 at a concrete input: inserting key 3 into `tracedFull`, whose LRU victim is
key 1. -/
theorem C5_insert_at_capacity_evicts_victim_witness :
    tracedFull.consistent ∧ tracedFull._storage.wf ∧
      tracedFull._currEntries = tracedFull._maxEntries ∧ 1 ≤ tracedFull._maxEntries ∧
      tracedFull._maxEntries < 2 ^ 64 ∧ tracedFull._storage.find 3 = none ∧
      ((policy_lru Nat).victim tracedFull._policy.1).1 = some 1 ∧
      tracedFull._storage.find 1 = some 10 ∧
      ∃ c1, cache.insert (policy_lru Nat).traced 64 (0 + 1) tracedFull 3 30 =
          some (insert_result.returned true, c1) ∧
        c1._storage.entries =
          tracedFull._storage.entries.filter (fun e => !decide (e.1 = 1)) ++ [(3, 30)] ∧
        (∀ x, c1._storage.find x =
          if x = 3 then some 30 else if x = 1 then none else tracedFull._storage.find x) ∧
        c1._storage.size = tracedFull._storage.size ∧
        c1._maxEntries = tracedFull._maxEntries ∧
        c1._currEntries = tracedFull._maxEntries ∧
        c1._policy = ((policy_lru Nat).insert 3 ((policy_lru Nat).remove 1
            ((policy_lru Nat).victim tracedFull._policy.1).2),
          tracedFull._policy.2 ++
            [PolicyCall.victim, PolicyCall.remove 1, PolicyCall.insert 3]) ∧
        cache.size false tracedFull = some tracedFull._maxEntries ∧
        cache.size false c1 = some tracedFull._maxEntries :=
  ⟨by decide, by decide, by decide, by decide, by decide, by decide, by decide, by decide,
    C5_insert_at_capacity_evicts_victim (policy_lru Nat) 64 0 tracedFull 3 1 30 10
      (by decide) (by decide) (by decide) (by decide) (by decide) (by decide) (by decide)
      (by decide)⟩

/-- C6 (the code breaks failed-insert atomicity). The state `drifted` is reached
from a fresh LRU cache of capacity 1 by `insert(1,10)`, `erase(2)`, `erase(2)`; it
stores key 1. The call `insert(3,30)` then evicts key 1, finds no further victim and
fails with `stlcache_cache_full`: the storage and the policy have lost key 1 and the
counter has changed. -/
theorem C6_failed_insert_keeps_evictions :
    run (policy_lru Nat) 64 false 8 (lruCache 1) [Op.insert 1 10, Op.erase 2, Op.erase 2] =
        some drifted ∧
      drifted._storage.entries = [(1, 10)] ∧ drifted._policy = [1] ∧
      cache.insert (policy_lru Nat) 64 8 drifted 3 30 =
        some (insert_result.stlcache_cache_full,
          { _storage := ⟨[]⟩, _maxEntries := 1, _currEntries := 2 ^ 64 - 2, _policy := [] }) := by
  refine ⟨by decide, by decide, by decide, by decide⟩

/-- C7. A cache constructed with capacity 0 has `max_size()` 0, an empty storage and
a counter of 0. In every state with `max_size()` 0 whose policy reports no victim,
`insert(key, value)` fails with `stlcache_cache_full` once the loop may run one
iteration, and leaves the storage, the counter and `max_size()` as they were (the
policy state is the one `victim()` left); so the storage stays empty and the counter
stays 0 through every such call. -/
theorem C7_capacity_zero_insert_fails {K D P : Type} [DecidableEq K]
    (pol : Policy K P) (w fuel : Nat) (c : cache K D P) (k : K) (d : D)
    (hcap : c._maxEntries = 0) (hv : (pol.victim c._policy).1 = none) :
    ((cache.construct pol 0 : cache K D P)._maxEntries = 0 ∧
      (cache.construct pol 0 : cache K D P)._storage = ⟨[]⟩ ∧
      (cache.construct pol 0 : cache K D P)._currEntries = 0 ∧
      (cache.construct pol 0 : cache K D P)._policy = pol.copy (pol.create 0) ∧
      cache.size false (cache.construct pol 0 : cache K D P) = some 0) ∧
    cache.insert pol w (fuel + 1) c k d =
      some (insert_result.stlcache_cache_full,
        { c with _policy := (pol.victim c._policy).2 }) := by
  refine ⟨⟨rfl, rfl, rfl, rfl, rfl⟩, ?_⟩
  have hge : c._currEntries ≥ c._maxEntries := by omega
  simp [cache.insert, cache.evict_succ_none pol w fuel c hge hv]

/-- C7 at a concrete input: `insert(5, 50)` on a fresh LRU cache of capacity 0. -/
theorem C7_capacity_zero_insert_fails_witness :
    (lruCache 0)._maxEntries = 0 ∧ ((policy_lru Nat).victim (lruCache 0)._policy).1 = none ∧
      (((cache.construct (policy_lru Nat) 0 : cache Nat Nat (List Nat))._maxEntries = 0 ∧
        (cache.construct (policy_lru Nat) 0 : cache Nat Nat (List Nat))._storage = ⟨[]⟩ ∧
        (cache.construct (policy_lru Nat) 0 : cache Nat Nat (List Nat))._currEntries = 0 ∧
        (cache.construct (policy_lru Nat) 0 : cache Nat Nat (List Nat))._policy =
          (policy_lru Nat).copy ((policy_lru Nat).create 0) ∧
        cache.size false (cache.construct (policy_lru Nat) 0 : cache Nat Nat (List Nat)) =
          some 0) ∧
      cache.insert (policy_lru Nat) 64 (0 + 1) (lruCache 0) 5 50 =
        some (insert_result.stlcache_cache_full,
          { lruCache 0 with
            _policy := ((policy_lru Nat).victim (lruCache 0)._policy).2 })) :=
  ⟨by decide, by decide,
    C7_capacity_zero_insert_fails (policy_lru Nat) 64 0 (lruCache 0) 5 50
      (by decide) (by decide)⟩

/-- C8. For every cache state and key, `fetch(key)` returns the stored value when
the key is present in storage and throws `stlcache_invalid_key` carrying that key
when it is absent (it never dereferences `end()`); in both cases the storage, the
counter and `max_size()` are unchanged, and the only effect is on the policy: one
`touch(key)` on a miss, two on a hit. -/
theorem C8_fetch_result {K D P : Type} [DecidableEq K]
    (pol : Policy K P) (c : cache K D (P × List (PolicyCall K))) (k : K) :
    cache.fetch pol.traced c k =
      match c._storage.find k with
      | some d =>
        (fetch_result.returned d,
          { c with
            _policy := (pol.touch k (pol.touch k c._policy.1),
              c._policy.2 ++ [PolicyCall.touch k, PolicyCall.touch k]) })
      | none =>
        (fetch_result.stlcache_invalid_key k,
          { c with _policy := (pol.touch k c._policy.1, c._policy.2 ++ [PolicyCall.touch k]) }) := by
  cases h : c._storage.find k <;> simp [cache.fetch, cache.check, h, Policy.traced]

/-- C9 (counterexample). In `tracedHalf` key 1 is stored; `check(1)` returns `true`
after one `touch(1)`, `fetch(1)` returns the value after two, so the two calls leave
different states. -/
theorem C9_fetch_touches_twice_on_hit :
    (cache.check (policy_lru Nat).traced tracedHalf 1).1 = true ∧
      (cache.fetch (policy_lru Nat).traced tracedHalf 1).1 = fetch_result.returned 10 ∧
      (cache.check (policy_lru Nat).traced tracedHalf 1).2._policy.2 = [PolicyCall.touch 1] ∧
      (cache.fetch (policy_lru Nat).traced tracedHalf 1).2._policy.2 =
        [PolicyCall.touch 1, PolicyCall.touch 1] ∧
      (cache.check (policy_lru Nat).traced tracedHalf 1).2 ≠
        (cache.fetch (policy_lru Nat).traced tracedHalf 1).2 := by
  refine ⟨by decide, by decide, by decide, by decide, by decide⟩

/-- C9 (amended). For every cache state and key, `check(key)` returns `true` exactly
when `fetch(key)` returns a value, and never fails; `check` leaves the storage, the
counter and `max_size()` unchanged and notifies the policy of one `touch(key)`, made
before the lookup. On a miss `fetch` leaves the same state as `check`; on a hit
`fetch` leaves the state of `check` with one more `touch(key)`. -/
theorem C9_check_against_fetch {K D P : Type} [DecidableEq K]
    (pol : Policy K P) (c : cache K D (P × List (PolicyCall K))) (k : K) :
    (cache.check pol.traced c k).1 =
        (match (cache.fetch pol.traced c k).1 with
          | fetch_result.returned _ => true
          | _ => false) ∧
      (cache.check pol.traced c k).1 = (c._storage.find k).isSome ∧
      (cache.check pol.traced c k).2 =
        { c with _policy := (pol.touch k c._policy.1, c._policy.2 ++ [PolicyCall.touch k]) } ∧
      (cache.fetch pol.traced c k).2 =
        (if (cache.check pol.traced c k).1 then
          { (cache.check pol.traced c k).2 with
            _policy := (pol.touch k (cache.check pol.traced c k).2._policy.1,
              (cache.check pol.traced c k).2._policy.2 ++ [PolicyCall.touch k]) }
        else (cache.check pol.traced c k).2) := by
  cases h : c._storage.find k <;> simp [cache.fetch, cache.check, h, Policy.traced]

/-- C10 (the code breaks the size accounting of `erase`). On a fresh, consistent
cache of capacity 1, `erase(7)` of a key that is not stored returns 0, yet the
counter goes from 0 to `2 ^ 64 - 1` instead of decreasing by the returned count;
`size()` then fails its assertion, or reports `2 ^ 64 - 1` when assertions are
compiled out. -/
theorem C10_erase_decrements_on_absent_key :
    (lruCache 1).consistent ∧ (lruCache 1)._storage.find 7 = none ∧
      cache.size false (lruCache 1) = some 0 ∧
      cache.erase (policy_lru Nat) 64 (lruCache 1) 7 =
        (0, { _storage := ⟨[]⟩, _maxEntries := 1, _currEntries := 2 ^ 64 - 1, _policy := [] }) ∧
      cache.size false (cache.erase (policy_lru Nat) 64 (lruCache 1) 7).2 = none ∧
      cache.size true (cache.erase (policy_lru Nat) 64 (lruCache 1) 7).2 =
        some 18446744073709551615 := by
  refine ⟨by decide, by decide, by decide, by decide, by decide, by decide⟩

/-- C11 (the code does not recompute the sizes in `swap`). `halfOne` (capacity 2,
one entry) and a fresh cache of capacity 1 are both consistent. With assertions
compiled in, `halfOne.swap(fresh)` fails the assertion of `size()`; with assertions
compiled out it exchanges storage, policy and capacity but leaves each counter as it
was: `*this` then holds 0 entries with a counter of 1, and `mp` holds 1 entry with a
counter of 0. -/
theorem C11_swap_keeps_stale_counters :
    halfOne.consistent ∧ (lruCache 1).consistent ∧
      cache.swap (policy_lru Nat) false halfOne (lruCache 1) = none ∧
      cache.swap (policy_lru Nat) true halfOne (lruCache 1) =
        some ({ _storage := ⟨[]⟩, _maxEntries := 1, _currEntries := 1, _policy := [] },
          { _storage := ⟨[(1, 10)]⟩, _maxEntries := 2, _currEntries := 0, _policy := [1] }) ∧
      (cache.swap (policy_lru Nat) true halfOne (lruCache 1)).map
          (fun r => (cache.size true r.1, r.1._storage.size,
            cache.size true r.2, r.2._storage.size)) =
        some (some 1, 0, some 0, 1) := by
  refine ⟨by decide, by decide, by decide, by decide, by decide⟩

/-- C12 (the code breaks swap symmetry when assertions are compiled in). `halfOne` is
reached from a fresh LRU cache of capacity 2 by `insert(1, 10)`; it and a fresh cache
of capacity 1 are consistent, and the `swap` of the LRU policy exchanges its two
states. With assertions compiled in, `halfOne.swap(fresh)` fails the assertion of
`size()`, so the two swaps in a row do not give back the two containers; with
assertions compiled out they do. -/
theorem C12_swap_twice_fails_assertion :
    run (policy_lru Nat) 64 false 8 (lruCache 2) [Op.insert 1 10] = some halfOne ∧
      halfOne.consistent ∧ (lruCache 1).consistent ∧
      (∀ p q, (policy_lru Nat).swap p q = (q, p)) ∧
      cache.swap (policy_lru Nat) false halfOne (lruCache 1) = none ∧
      (cache.swap (policy_lru Nat) false halfOne (lruCache 1)).bind
          (fun r => cache.swap (policy_lru Nat) false r.1 r.2) = none ∧
      (cache.swap (policy_lru Nat) true halfOne (lruCache 1)).bind
          (fun r => cache.swap (policy_lru Nat) true r.1 r.2) = some (halfOne, lruCache 1) := by
  refine ⟨by decide, by decide, by decide, fun _ _ => rfl, by decide, by decide, by decide⟩

/-- C13. Take any policy together with its set of tracked keys (the keys notified by
`insert` and not since by `remove`, emptied by `clear`, exchanged by `swap`, copied
by assignment). For every sequence of container calls on a freshly constructed
cache, in which the other container of each `swap` and assignment has its tracked
keys equal to its stored keys: after the whole sequence, and after every prefix of
it, the tracked keys of the policy are exactly the keys present in storage. -/
theorem C13_tracked_keys_equal_stored_keys {K D P : Type} [DecidableEq K]
    (pol : Policy K P) (w : Nat) (ndebug : Bool) (fuel n : Nat)
    (ops1 ops2 : List (Op K D (P × List K))) (c2 : cache K D (P × List K))
    (hops : ∀ op ∈ ops1 ++ ops2, op.synced)
    (hrun : run pol.tracking w ndebug fuel (cache.construct pol.tracking n) (ops1 ++ ops2) =
      some c2) :
    (∀ x, x ∈ c2._policy.2 ↔ x ∈ c2._storage.keys) ∧
      ∃ c1, run pol.tracking w ndebug fuel (cache.construct pol.tracking n) ops1 = some c1 ∧
        ∀ x, x ∈ c1._policy.2 ↔ x ∈ c1._storage.keys := by
  have h0 : (cache.construct pol.tracking n : cache K D (P × List K)).synced := by
    simp [cache.synced, cache.construct, Policy.tracking, storageType.keys]
  refine ⟨(cache.synced_iff c2).1 (cache.synced_run pol w ndebug fuel _ c2 _ h0 hops hrun), ?_⟩
  rw [run_append] at hrun
  cases h1 : run pol.tracking w ndebug fuel (cache.construct pol.tracking n) ops1 with
  | none => simp [h1] at hrun
  | some c1 =>
    exact ⟨c1, rfl, (cache.synced_iff c1).1 (cache.synced_run pol w ndebug fuel _ c1 _ h0
      (fun op ho => hops op (List.mem_append_left _ ho)) h1)⟩

/-- C13 at a concrete input: the calls `trackingOps1` followed by `trackingOps2` on a
fresh LRU cache of capacity 2, assertions compiled out. -/
theorem C13_tracked_keys_equal_stored_keys_witness :
    (∀ op ∈ trackingOps1 ++ trackingOps2, op.synced) ∧
      run (policy_lru Nat).tracking 64 true 4 (cache.construct (policy_lru Nat).tracking 2)
          (trackingOps1 ++ trackingOps2) =
        some { _storage := ⟨[(9, 90), (6, 60)]⟩, _maxEntries := 2, _currEntries := 2,
               _policy := ([9, 6], [9, 6]) } ∧
      ((∀ x, x ∈ [9, 6] ↔ x ∈ (⟨[(9, 90), (6, 60)]⟩ : storageType Nat Nat).keys) ∧
        ∃ c1, run (policy_lru Nat).tracking 64 true 4
            (cache.construct (policy_lru Nat).tracking 2) trackingOps1 = some c1 ∧
          ∀ x, x ∈ c1._policy.2 ↔ x ∈ c1._storage.keys) :=
  ⟨by decide, by decide,
    C13_tracked_keys_equal_stored_keys (policy_lru Nat) 64 true 4 2 trackingOps1 trackingOps2
      { _storage := ⟨[(9, 90), (6, 60)]⟩, _maxEntries := 2, _currEntries := 2,
        _policy := ([9, 6], [9, 6]) }
      (by decide) (by decide)⟩

/-- C14. For every cache state, after `clear()` the storage is empty, the counter and
`size()` are 0, `empty()` is `true`, `max_size()` is unchanged and the policy has
received exactly one call, `clear()`. When moreover the capacity is at least 1 (a
`std::size_t`, so below `2 ^ w`), a following `insert(key, value)` returns `true`
for any loop bound, with `insert(key)` as its only policy call (no eviction), and
leaves `key -> value` as the only entry. -/
theorem C14_clear {K D P : Type} [DecidableEq K]
    (pol : Policy K P) (w fuel : Nat) (c : cache K D (P × List (PolicyCall K))) (k : K)
    (d : D) :
    cache.clear pol.traced c =
        { _storage := ⟨[]⟩
          _maxEntries := c._maxEntries
          _currEntries := 0
          _policy := (pol.clear c._policy.1, c._policy.2 ++ [PolicyCall.clear]) } ∧
      cache.size false (cache.clear pol.traced c) = some 0 ∧
      cache.empty (cache.clear pol.traced c) = true ∧
      cache.max_size (cache.clear pol.traced c) = cache.max_size c ∧
      (1 ≤ c._maxEntries → c._maxEntries < 2 ^ w →
        cache.insert pol.traced w fuel (cache.clear pol.traced c) k d =
          some (insert_result.returned true,
            { _storage := ⟨[(k, d)]⟩
              _maxEntries := c._maxEntries
              _currEntries := 1
              _policy := (pol.insert k (pol.clear c._policy.1),
                c._policy.2 ++ [PolicyCall.clear, PolicyCall.insert k]) })) := by
  refine ⟨rfl, rfl, rfl, rfl, ?_⟩
  intro hpos hmax
  have h1 : (1 : Nat) % 2 ^ w = 1 := Nat.mod_eq_of_lt (by omega)
  have hlt : (cache.clear pol.traced c)._currEntries < (cache.clear pol.traced c)._maxEntries :=
    hpos
  rw [cache.insert_of_lt pol.traced w fuel _ k d hlt]
  simp [cache.clear, storageType.clear, storageType.insert, storageType.find,
    storageType.lookup, Policy.traced, h1]

/-- C14 at concrete inputs: `clear()` on a fresh cache of capacity 0, and `clear()`
on `tracedFull`, of capacity 2, followed by `insert(7, 70)`. -/
theorem C14_clear_witness :
    (cache.clear (policy_lru Nat).traced (tracedCache 0) =
          { _storage := ⟨[]⟩
            _maxEntries := 0
            _currEntries := 0
            _policy := ([], [PolicyCall.create 0, PolicyCall.copy, PolicyCall.clear]) } ∧
        cache.size false (cache.clear (policy_lru Nat).traced (tracedCache 0)) = some 0 ∧
        cache.empty (cache.clear (policy_lru Nat).traced (tracedCache 0)) = true ∧
        cache.max_size (cache.clear (policy_lru Nat).traced (tracedCache 0)) =
          cache.max_size (tracedCache 0)) ∧
      1 ≤ tracedFull._maxEntries ∧ tracedFull._maxEntries < 2 ^ 64 ∧
      cache.clear (policy_lru Nat).traced tracedFull =
        { _storage := ⟨[]⟩
          _maxEntries := tracedFull._maxEntries
          _currEntries := 0
          _policy := ((policy_lru Nat).clear tracedFull._policy.1,
            tracedFull._policy.2 ++ [PolicyCall.clear]) } ∧
      cache.size false (cache.clear (policy_lru Nat).traced tracedFull) = some 0 ∧
      cache.empty (cache.clear (policy_lru Nat).traced tracedFull) = true ∧
      cache.max_size (cache.clear (policy_lru Nat).traced tracedFull) =
        cache.max_size tracedFull ∧
      cache.insert (policy_lru Nat).traced 64 0
          (cache.clear (policy_lru Nat).traced tracedFull) 7 70 =
        some (insert_result.returned true,
          { _storage := ⟨[(7, 70)]⟩
            _maxEntries := tracedFull._maxEntries
            _currEntries := 1
            _policy := ((policy_lru Nat).insert 7 ((policy_lru Nat).clear tracedFull._policy.1),
              tracedFull._policy.2 ++ [PolicyCall.clear, PolicyCall.insert 7]) }) :=
  ⟨⟨(C14_clear (policy_lru Nat) 64 0 (tracedCache 0) 7 70).1,
      (C14_clear (policy_lru Nat) 64 0 (tracedCache 0) 7 70).2.1,
      (C14_clear (policy_lru Nat) 64 0 (tracedCache 0) 7 70).2.2.1,
      (C14_clear (policy_lru Nat) 64 0 (tracedCache 0) 7 70).2.2.2.1⟩,
    by decide, by decide,
    (C14_clear (policy_lru Nat) 64 0 tracedFull 7 70).1,
    (C14_clear (policy_lru Nat) 64 0 tracedFull 7 70).2.1,
    (C14_clear (policy_lru Nat) 64 0 tracedFull 7 70).2.2.1,
    (C14_clear (policy_lru Nat) 64 0 tracedFull 7 70).2.2.2.1,
    (C14_clear (policy_lru Nat) 64 0 tracedFull 7 70).2.2.2.2 (by decide) (by decide)⟩

/-- C15. For every source container `x` (holding fewer than `2 ^ w` entries) and
every destination, assignment and copy construction leave the destination with a
storage equal to that of `x`, the `max_size()` of `x`, a counter and a `size()`
equal to the number of entries in that storage, and a policy object that is a copy
of a copy of the policy object of `x`, in a new cell of the heap. The source `x` is
unchanged, and any later method `f` run on the destination leaves the storage, the
counter, the capacity and the policy object of `x` unchanged. -/
theorem C15_assignment_copies {K D P : Type} [DecidableEq K]
    (pol : Policy K P) (w : Nat) (heap : List P) (self x : cache_object K D) (cx : cache K D P)
    (f : cache K D P → cache K D P)
    (hx : x.load heap = some cx) (hsz : x._storage.size < 2 ^ w) :
    ∃ heap1 self1 c1, cache_object.assign pol w heap self x = some (heap1, self1) ∧
      self1.load heap1 = some c1 ∧
      c1._storage = cx._storage ∧ c1._maxEntries = cx._maxEntries ∧
      c1._currEntries = cx._storage.size ∧
      c1._policy = pol.copy (pol.copy cx._policy) ∧
      cache.size false c1 = some cx._storage.size ∧
      (∀ cs, c1 = cache.assign pol w cs cx) ∧ c1 = cache.copy_construct pol w cx ∧
      self1._policy ≠ x._policy ∧
      x.load heap1 = some cx ∧
      ∃ heap2 self2, cache_object.apply f heap1 self1 = some (heap2, self2) ∧
        self2.load heap2 = some (f c1) ∧ x.load heap2 = some cx := by
  unfold cache_object.load at hx
  cases hp : heap[x._policy]? with
  | none => simp [hp] at hx
  | some px =>
    simp only [hp, Option.some.injEq] at hx
    have hlt : x._policy < heap.length := by
      rcases List.getElem?_eq_some.1 hp with ⟨h, -⟩
      exact h
    have hmod : x._storage.size % 2 ^ w = x._storage.size := Nat.mod_eq_of_lt hsz
    have hne : heap.length ≠ x._policy := by omega
    have hget1 : (heap ++ [pol.copy (pol.copy px)])[heap.length]? =
        some (pol.copy (pol.copy px)) := List.getElem?_concat_length _ _
    have hget2 : (heap ++ [pol.copy (pol.copy px)])[x._policy]? = some px := by
      rw [List.getElem?_append_left hlt, hp]
    subst hx
    refine ⟨heap ++ [pol.copy (pol.copy px)],
      { _storage := x._storage, _maxEntries := x._maxEntries,
        _currEntries := x._storage.size % 2 ^ w, _policy := heap.length },
      { _storage := x._storage, _maxEntries := x._maxEntries,
        _currEntries := x._storage.size, _policy := pol.copy (pol.copy px) }, ?_, ?_, rfl, rfl,
      rfl, rfl, ?_, ?_, ?_, hne, ?_, ?_⟩
    · simp [cache_object.assign, hp]
    · simp [cache_object.load, hget1, hmod]
    · simp [cache.size]
    · intro cs
      simp [cache.assign, hmod]
    · simp [cache.copy_construct, cache.assign, hmod]
    · simp [cache_object.load, hget2]
    · have happly : cache_object.apply f (heap ++ [pol.copy (pol.copy px)])
          ({ _storage := x._storage, _maxEntries := x._maxEntries,
             _currEntries := x._storage.size % 2 ^ w, _policy := heap.length } :
            cache_object K D) =
          some ((heap ++ [pol.copy (pol.copy px)]).set heap.length
              (f { _storage := x._storage, _maxEntries := x._maxEntries,
                   _currEntries := x._storage.size,
                   _policy := pol.copy (pol.copy px) })._policy,
            { _storage := (f { _storage := x._storage, _maxEntries := x._maxEntries,
                               _currEntries := x._storage.size,
                               _policy := pol.copy (pol.copy px) })._storage
              _maxEntries := (f { _storage := x._storage, _maxEntries := x._maxEntries,
                                  _currEntries := x._storage.size,
                                  _policy := pol.copy (pol.copy px) })._maxEntries
              _currEntries := (f { _storage := x._storage, _maxEntries := x._maxEntries,
                                   _currEntries := x._storage.size,
                                   _policy := pol.copy (pol.copy px) })._currEntries
              _policy := heap.length }) := by
        simp only [cache_object.apply, cache_object.load, hget1, hmod]
      refine ⟨_, _, happly, ?_, ?_⟩
      · simp only [cache_object.load]
        rw [List.getElem?_set_self (by simp)]
      · simp only [cache_object.load]
        rw [List.getElem?_set_ne hne, hget2]

/-- C15 at a concrete input: `objectSelf = objectX` in the heap `twoHeap`, followed
by `clear()` on the destination. -/
theorem C15_assignment_copies_witness :
    objectX.load twoHeap =
        some { _storage := ⟨[(1, 10)]⟩, _maxEntries := 2, _currEntries := 1, _policy := [1] } ∧
      objectX._storage.size < 2 ^ 64 ∧
      ∃ heap1 self1 c1,
        cache_object.assign (policy_lru Nat) 64 twoHeap objectSelf objectX =
          some (heap1, self1) ∧
        self1.load heap1 = some c1 ∧
        c1._storage = (⟨[(1, 10)]⟩ : storageType Nat Nat) ∧ c1._maxEntries = 2 ∧
        c1._currEntries = (⟨[(1, 10)]⟩ : storageType Nat Nat).size ∧
        c1._policy = (policy_lru Nat).copy ((policy_lru Nat).copy [1]) ∧
        cache.size false c1 = some (⟨[(1, 10)]⟩ : storageType Nat Nat).size ∧
        (∀ cs, c1 = cache.assign (policy_lru Nat) 64 cs
          { _storage := ⟨[(1, 10)]⟩, _maxEntries := 2, _currEntries := 1, _policy := [1] }) ∧
        c1 = cache.copy_construct (policy_lru Nat) 64
          { _storage := ⟨[(1, 10)]⟩, _maxEntries := 2, _currEntries := 1, _policy := [1] } ∧
        self1._policy ≠ objectX._policy ∧
        objectX.load heap1 =
          some { _storage := ⟨[(1, 10)]⟩, _maxEntries := 2, _currEntries := 1,
                 _policy := [1] } ∧
        ∃ heap2 self2,
          cache_object.apply (cache.clear (policy_lru Nat)) heap1 self1 =
            some (heap2, self2) ∧
          self2.load heap2 = some (cache.clear (policy_lru Nat) c1) ∧
          objectX.load heap2 =
            some { _storage := ⟨[(1, 10)]⟩, _maxEntries := 2, _currEntries := 1,
                   _policy := [1] } :=
  ⟨by decide, by decide,
    C15_assignment_copies (policy_lru Nat) 64 twoHeap objectSelf objectX
      { _storage := ⟨[(1, 10)]⟩, _maxEntries := 2, _currEntries := 1, _policy := [1] }
      (cache.clear (policy_lru Nat)) (by decide) (by decide)⟩

/-- C16. Whenever `insert(key, value)` comes back, the policy calls made during the
call are the calls of the eviction loop, which are only `victim()` and `remove`,
followed by exactly one `insert(key)` when the call returns `true` or `false`
(whether or not the key was stored), and by nothing when it throws
`stlcache_cache_full`. -/
theorem C16_policy_sees_every_insert {K D P : Type} [DecidableEq K]
    (pol : Policy K P) (w fuel : Nat) (c c1 : cache K D (P × List (PolicyCall K))) (k : K)
    (d : D) (r : insert_result)
    (h : cache.insert pol.traced w fuel c k d = some (r, c1)) :
    ∃ l, (∀ e ∈ l, e = PolicyCall.victim ∨ ∃ v, e = PolicyCall.remove v) ∧
      c1._policy.2 = c._policy.2 ++ l ++
        (match r with
          | insert_result.returned _ => [PolicyCall.insert k]
          | insert_result.stlcache_cache_full => []) := by
  unfold cache.insert at h
  rcases he : cache.evict pol.traced w fuel c with _ | ⟨b, c2⟩
  · rw [he] at h
    cases h
  · rw [he] at h
    obtain ⟨l, hl, -, hall⟩ := cache.evict_traced_log pol w fuel c b c2 he
    refine ⟨l, hall, ?_⟩
    cases b with
    | false =>
      simp only [Option.some.injEq, Prod.mk.injEq] at h
      obtain ⟨rfl, rfl⟩ := h
      simp [hl]
    | true =>
      simp only [Option.some.injEq, Prod.mk.injEq] at h
      obtain ⟨rfl, rfl⟩ := h
      simp [hl, Policy.traced]

/-- C16 at concrete inputs: on `tracedFull` (at capacity, key 2 stored) the call
`insert(2, 99)` returns `false` after the calls `victim()`, `remove(1)`,
`insert(2)`. -/
theorem C16_policy_sees_every_insert_witness :
    cache.insert (policy_lru Nat).traced 64 1 tracedFull 2 99 =
        some (insert_result.returned false,
          { _storage := ⟨[(2, 20)]⟩, _maxEntries := 2, _currEntries := 1,
            _policy := ([2],
              [PolicyCall.victim, PolicyCall.remove 1, PolicyCall.insert 2]) }) ∧
      ∃ l, (∀ e ∈ l, e = PolicyCall.victim ∨ ∃ v, e = PolicyCall.remove v) ∧
        [PolicyCall.victim, PolicyCall.remove 1, PolicyCall.insert 2] =
          tracedFull._policy.2 ++ l ++ [PolicyCall.insert 2] :=
  ⟨by decide,
    C16_policy_sees_every_insert (policy_lru Nat) 64 1 tracedFull
      { _storage := ⟨[(2, 20)]⟩, _maxEntries := 2, _currEntries := 1,
        _policy := ([2], [PolicyCall.victim, PolicyCall.remove 1, PolicyCall.insert 2]) }
      2 99 (insert_result.returned false) (by decide)⟩

/-- C18. For every cache state in which the counter equals the number of stored
entries and is at most `max_size()` (a `std::size_t`, so below `2 ^ w`), whose
storage is a map, and whose policy answers `victim()` with none or with a key
present in storage: `insert(key, value)`, for any key, returns or throws
`stlcache_cache_full` once the loop may run one iteration, and afterwards the
counter still equals the number of stored entries and is at most `max_size()`, which
is unchanged. -/
theorem C18_insert_preserves_invariants {K D P : Type} [DecidableEq K]
    (pol : Policy K P) (w fuel : Nat) (c : cache K D P) (k : K) (d : D)
    (hc : c.consistent) (hwf : c._storage.wf) (hle : c._currEntries ≤ c._maxEntries)
    (hmax : c._maxEntries < 2 ^ w)
    (hv : ∀ v, (pol.victim c._policy).1 = some v → v ∈ c._storage.keys) :
    ∃ r c1, cache.insert pol w (fuel + 1) c k d = some (r, c1) ∧ c1.consistent ∧
      c1._currEntries ≤ c1._maxEntries ∧ c1._maxEntries = c._maxEntries ∧ c1._storage.wf := by
  by_cases hlt : c._currEntries < c._maxEntries
  · exact cache.insert_inv_of_lt pol w (fuel + 1) c k d hc hwf hlt hmax
  · have hge : c._currEntries ≥ c._maxEntries := Nat.not_lt.mp hlt
    cases hvo : (pol.victim c._policy).1 with
    | none =>
      refine ⟨insert_result.stlcache_cache_full,
        { c with _policy := (pol.victim c._policy).2 }, ?_, hc, hle, rfl, hwf⟩
      simp [cache.insert, cache.evict_succ_none pol w fuel c hge hvo]
    | some v =>
      have hvk : v ∈ c._storage.keys := hv v hvo
      obtain ⟨dv, hdv⟩ := storageType.lookup_of_mem_keys v c._storage.entries hvk
      have hcnt : (c._storage.erase v).2 = 1 :=
        storageType.count_eq_one_of_find_some c._storage v dv hwf hdv
      have hsz := storageType.size_erase c._storage v
      rw [hcnt] at hsz
      have hc1 : c._currEntries = c._storage.size := hc
      have hdec : (c._currEntries + 2 ^ w - 1) % 2 ^ w = c._currEntries - 1 :=
        cache.dec_mod w _ (by omega) (by omega)
      rw [cache.insert_succ_some pol w fuel c k v d hge hvo]
      have hcons : (cache.erase pol w { c with _policy := (pol.victim c._policy).2 } v).2.consistent := by
        simp only [cache.consistent, cache.erase, hdec]
        omega
      obtain ⟨r, c1, h1, h2, h3, h4, h5⟩ := cache.insert_inv_of_lt pol w fuel
        (cache.erase pol w { c with _policy := (pol.victim c._policy).2 } v).2 k d hcons
        (storageType.wf_erase c._storage v hwf)
        (by simp only [cache.erase, hdec]; omega)
        (by simpa [cache.erase] using hmax)
      exact ⟨r, c1, h1, h2, h3, h4, h5⟩

/-- C18 at a concrete input: `insert(3, 30)` into `fullOne`, whose LRU victim is the
stored key 1. -/
theorem C18_insert_preserves_invariants_witness :
    fullOne.consistent ∧ fullOne._storage.wf ∧ fullOne._currEntries ≤ fullOne._maxEntries ∧
      fullOne._maxEntries < 2 ^ 64 ∧
      (∀ v, ((policy_lru Nat).victim fullOne._policy).1 = some v → v ∈ fullOne._storage.keys) ∧
      ∃ r c1, cache.insert (policy_lru Nat) 64 (0 + 1) fullOne 3 30 = some (r, c1) ∧
        c1.consistent ∧ c1._currEntries ≤ c1._maxEntries ∧
        c1._maxEntries = fullOne._maxEntries ∧ c1._storage.wf :=
  ⟨by decide, by decide, by decide, by decide, by decide,
    C18_insert_preserves_invariants (policy_lru Nat) 64 0 fullOne 3 30
      (by decide) (by decide) (by decide) (by decide) (by decide)⟩

/-- C19. For every cache state and key, `erase(key)` leaves the counter at the old
value minus 1 modulo `2 ^ w`, also when the key is not stored and 0 is returned.
Consequently, for a freshly constructed cache of any capacity `n` (a `std::size_t`,
so below `2 ^ w`; in particular for every `n >= 1`) whose policy reports no victim
while nothing is tracked, `erase(k)` leaves the counter at `2 ^ w - 1`, and the following `insert(k, v)` fails with
`stlcache_cache_full` once the loop may run one iteration, although the storage is
empty. -/
theorem C19_erase_then_insert_fails {K D P : Type} [DecidableEq K]
    (pol : Policy K P) (w fuel n : Nat) (k : K) (d : D)
    (hn : n < 2 ^ w)
    (hv : (pol.victim (pol.remove k (pol.copy (pol.create n)))).1 = none) :
    (∀ (c : cache K D P) (x : K),
        (cache.erase pol w c x).2._currEntries = (c._currEntries + 2 ^ w - 1) % 2 ^ w ∧
        (cache.erase pol w c x).1 = c._storage.count x ∧
        (c._storage.find x = none → (cache.erase pol w c x).1 = 0)) ∧
      (cache.erase pol w (cache.construct pol n : cache K D P) k).1 = 0 ∧
      (cache.erase pol w (cache.construct pol n : cache K D P) k).2._currEntries = 2 ^ w - 1 ∧
      (cache.erase pol w (cache.construct pol n : cache K D P) k).2._storage = ⟨[]⟩ ∧
      cache.insert pol w (fuel + 1) (cache.erase pol w (cache.construct pol n) k).2 k d =
        some (insert_result.stlcache_cache_full,
          { _storage := ⟨[]⟩
            _maxEntries := n
            _currEntries := 2 ^ w - 1
            _policy := (pol.victim (pol.remove k (pol.copy (pol.create n)))).2 }) := by
  have hpow : 1 ≤ 2 ^ w := Nat.one_le_two_pow
  have hwrap : (0 + 2 ^ w - 1) % 2 ^ w = 2 ^ w - 1 := by
    rw [Nat.zero_add]; exact Nat.mod_eq_of_lt (by omega)
  refine ⟨?_, rfl, ?_, rfl, ?_⟩
  · intro c x
    exact ⟨rfl, rfl, fun h => storageType.count_eq_zero_of_find_none c._storage x h⟩
  · simp [cache.erase, cache.construct, hwrap]
  · have hge : (cache.erase pol w (cache.construct pol n : cache K D P) k).2._currEntries ≥
        (cache.erase pol w (cache.construct pol n : cache K D P) k).2._maxEntries := by
      simp only [cache.erase, cache.construct, hwrap]
      omega
    unfold cache.insert
    rw [cache.evict_succ_none pol w fuel _ hge hv]
    simp [cache.erase, cache.construct, hwrap, storageType.erase]

/-- C19 at a concrete input: a fresh LRU cache of capacity 3 with a 64-bit counter,
`erase(5)` then `insert(5, 50)`. -/
theorem C19_erase_then_insert_fails_witness :
    3 < 2 ^ 64 ∧
      ((policy_lru Nat).victim ((policy_lru Nat).remove 5
        ((policy_lru Nat).copy ((policy_lru Nat).create 3)))).1 =
        none ∧
      ((∀ (c : cache Nat Nat (List Nat)) (x : Nat),
          (cache.erase (policy_lru Nat) 64 c x).2._currEntries =
            (c._currEntries + 2 ^ 64 - 1) % 2 ^ 64 ∧
          (cache.erase (policy_lru Nat) 64 c x).1 = c._storage.count x ∧
          (c._storage.find x = none → (cache.erase (policy_lru Nat) 64 c x).1 = 0)) ∧
        (cache.erase (policy_lru Nat) 64
          (cache.construct (policy_lru Nat) 3 : cache Nat Nat (List Nat)) 5).1 = 0 ∧
        (cache.erase (policy_lru Nat) 64
          (cache.construct (policy_lru Nat) 3 : cache Nat Nat (List Nat)) 5).2._currEntries =
            2 ^ 64 - 1 ∧
        (cache.erase (policy_lru Nat) 64
          (cache.construct (policy_lru Nat) 3 : cache Nat Nat (List Nat)) 5).2._storage = ⟨[]⟩ ∧
        cache.insert (policy_lru Nat) 64 (0 + 1)
            (cache.erase (policy_lru Nat) 64 (cache.construct (policy_lru Nat) 3) 5).2 5 50 =
          some (insert_result.stlcache_cache_full,
            { _storage := ⟨[]⟩
              _maxEntries := 3
              _currEntries := 2 ^ 64 - 1
              _policy := ((policy_lru Nat).victim
                ((policy_lru Nat).remove 5
                  ((policy_lru Nat).copy ((policy_lru Nat).create 3)))).2 })) :=
  ⟨by decide, by decide,
    C19_erase_then_insert_fails (policy_lru Nat) 64 0 3 5 50 (by decide) (by decide)⟩

end stlcache
